import Mathlib

/-!
# BadgerOS loader glue (`src/loading/kbelfx.c`)

A shallow embedding of the user-defined hooks that BadgerOS hands to the
kbelf loading engine: segment placement (`kbelfx_seg_alloc`,
`kbelfx_seg_free`) and the file bridge (`kbelfx_open`, `kbelfx_close`,
`kbelfx_getc`, `kbelfx_read`, `kbelfx_seek`).

Conventions of the embedding.

* `size_t` values are natural numbers; every `size_t` operation of the source
  is followed by an explicit reduction modulo `SIZE_MAX + 1`.  `SIZE_MAX`
  comes from the C library headers and is a parameter of the definitions.
* `int` values are integers; `int` arithmetic and conversions to `int` are
  reduced to the two's complement range `[-INT_MAX - 1, INT_MAX]`.  `INT_MAX`
  is a parameter as well.
* `void *` values are represented by their integer value; `NULL` is `0`.
* The process memory manager and the filesystem are collaborators declared
  outside this file of the source.  They are parameters: a record of
  state-passing functions over an arbitrary state type.
* Every hook returns, next to its C return value, the collaborator state it
  leaves behind and the list of collaborator calls it made, in order.
* The `logkf` debug output of `kbelfx_seg_alloc` does not influence any value
  and is left out.
-/

namespace BadgerOS

/-! ## Data model -/

/-- The fields of `kbelf_segment` that `kbelfx.c` reads or writes. -/
structure kbelf_segment where
  /-- Virtual address the image was linked for. -/
  vaddr_req : Nat
  /-- Size of the segment in bytes. -/
  size : Nat
  /-- Virtual address granted by placement. -/
  vaddr_real : Nat
  /-- Physical address. -/
  paddr : Nat
  /-- Address in the loader's address space. -/
  laddr : Nat
  /-- Allocator cookie (`void *`, `NULL` is `0`). -/
  alloc_cookie : Nat
  deriving DecidableEq, Repr

/-- A call made to one of the collaborators, with the arguments that the
hook passed (the leading error-code pointer, always `NULL`, and the process
pointer are left out). -/
inductive Call where
  /-- The call `proc_map_raw(NULL, proc, vaddr, size, align)`. -/
  | proc_map_raw (vaddr size align : Nat)
  /-- The call `proc_unmap_raw(NULL, proc, vaddr)`. -/
  | proc_unmap_raw (vaddr : Nat)
  /-- The call `fs_open(NULL, path, OFLAGS_READONLY)`. -/
  | fs_open (path : String)
  /-- The call `fs_close(NULL, fd)`. -/
  | fs_close (fd : Int)
  /-- The call `fs_read(NULL, fd, buf, len)`. -/
  | fs_read (fd : Int) (len : Int)
  /-- The call `fs_seek(NULL, fd, off, SEEK_ABS)`. -/
  | fs_seek (fd : Int) (off : Int)
  deriving DecidableEq, Repr

/-- Outcome of running a hook: its C return value, the collaborator state
afterwards and the collaborator calls made, oldest first. -/
structure Ran (σ α : Type) where
  ret : α
  state : σ
  calls : List Call

/-- Ways in which a hook leaves defined behaviour. -/
inductive Fault where
  /-- The check `assert_dev_keep(proc != NULL)` failed. -/
  | assert_failed
  /-- The element `segs[0]` was accessed although `segs_len` is zero. -/
  | out_of_bounds
  deriving DecidableEq, Repr

/-- The process memory manager (`process/internal.h`), acting on the memory
map `σ` of one process. -/
structure ProcMem (σ : Type) where
  /-- Reserve `size` bytes near `vaddr` with alignment `align`; the result is
  the base of the reservation, or `0` on failure. -/
  proc_map_raw : σ → Nat → Nat → Nat → Nat × σ
  /-- Release the reservation that starts at the given base. -/
  proc_unmap_raw : σ → Nat → σ

/-- The filesystem (`filesystem.h`) with state `σ`. -/
structure Filesys (σ : Type) where
  /-- Open `path` read-only; the result is a descriptor, or `-1` on failure. -/
  fs_open : σ → String → Int × σ
  /-- Close a descriptor. -/
  fs_close : σ → Int → σ
  /-- Read up to `len` bytes from a descriptor; the result is the count
  reported and the bytes stored into the caller's buffer. -/
  fs_read : σ → Int → Int → (Int × List Nat) × σ
  /-- Seek to an absolute offset; the result is the position reached. -/
  fs_seek : σ → Int → Int → Int × σ

/-! ## Machine arithmetic -/

/-- Reduction of an integer to the `size_t` range `[0, SIZE_MAX]`. -/
def size_wrap (SIZE_MAX : Nat) (x : Int) : Nat :=
  (x % ((SIZE_MAX + 1 : Nat) : Int)).toNat

/-- Reduction of an integer to the `int` range `[-INT_MAX - 1, INT_MAX]`. -/
def int_wrap (INT_MAX : Nat) (x : Int) : Int :=
  (x + ((INT_MAX + 1 : Nat) : Int)) % ((2 * (INT_MAX + 1) : Nat) : Int)
    - ((INT_MAX + 1 : Nat) : Int)

/-- Value of a `char` object holding the byte `b`, converted to `int`.
Plain `char` is unsigned when `CHAR_MAX` is `255` (the RISC-V ABI of the
esp32c6 port) and signed when `CHAR_MAX` is `127`. -/
def char_to_int (CHAR_MAX : Nat) (b : Nat) : Int :=
  if b % 256 ≤ CHAR_MAX then ((b % 256 : Nat) : Int) else ((b % 256 : Nat) : Int) - 256

/-! ## Segment placement -/

/-- One iteration of the first loop of `kbelfx_seg_alloc`; the accumulator is
`(min_addr, max_addr)`. -/
def seg_bounds_step (SIZE_MAX : Nat) (acc : Nat × Nat) (seg : kbelf_segment) : Nat × Nat :=
  let start := seg.vaddr_req
  let min_addr := if start < acc.1 then start else acc.1
  let end_addr := size_wrap SIZE_MAX ((seg.vaddr_req : Int) + seg.size)
  let max_addr := if end_addr > acc.2 then end_addr else acc.2
  (min_addr, max_addr)

/-- The first loop of `kbelfx_seg_alloc`: `(min_addr, max_addr)` after all
segments, starting from `(SIZE_MAX, 0)`. -/
def seg_bounds (SIZE_MAX : Nat) (segs : List kbelf_segment) : Nat × Nat :=
  segs.foldl (seg_bounds_step SIZE_MAX) (SIZE_MAX, 0)

/-- Body of the second loop of `kbelfx_seg_alloc` for one segment. -/
def seg_rebase (SIZE_MAX min_addr vaddr_real : Nat) (seg : kbelf_segment) : kbelf_segment :=
  let real :=
    size_wrap SIZE_MAX ((size_wrap SIZE_MAX ((seg.vaddr_req : Int) - min_addr) : Int) + vaddr_real)
  { seg with vaddr_real := real, paddr := real, laddr := real, alloc_cookie := 0 }

/-- The hook `kbelfx_seg_alloc(inst, segs_len, segs)`.  The list `segs` is
the array of length `segs_len`; `proc` is the result of
`proc_get(kbelf_inst_getpid(inst))`, `none` for `NULL`.  The result carries
the return value together with the array as the call leaves it. -/
def kbelfx_seg_alloc {σ : Type} (SIZE_MAX : Nat) (K : ProcMem σ) (proc : Option σ)
    (segs : List kbelf_segment) : Except Fault (Ran σ (Bool × List kbelf_segment)) :=
  match proc with
  | none => .error .assert_failed
  | some p =>
    let min_addr := (seg_bounds SIZE_MAX segs).1
    let max_addr := (seg_bounds SIZE_MAX segs).2
    let min_align := 16
    let len := size_wrap SIZE_MAX ((max_addr : Int) - min_addr)
    let r := K.proc_map_raw p min_addr len min_align
    let vaddr_real := r.1
    let calls := [Call.proc_map_raw min_addr len min_align]
    if vaddr_real = 0 then
      .ok ⟨(false, segs), r.2, calls⟩
    else
      match segs.map (seg_rebase SIZE_MAX min_addr vaddr_real) with
      | [] => .error .out_of_bounds
      | seg0 :: rest =>
        .ok ⟨(true, { seg0 with alloc_cookie := vaddr_real } :: rest), r.2, calls⟩

/-- The hook `kbelfx_seg_free(inst, segs_len, segs)`. -/
def kbelfx_seg_free {σ : Type} (K : ProcMem σ) (proc : Option σ)
    (segs : List kbelf_segment) : Except Fault (Ran σ Unit) :=
  match proc with
  | none => .error .assert_failed
  | some p =>
    match segs with
    | [] => .error .out_of_bounds
    | seg0 :: _ =>
      .ok ⟨(), K.proc_unmap_raw p seg0.alloc_cookie, [Call.proc_unmap_raw seg0.alloc_cookie]⟩

/-! ## File bridge -/

/-- The hook `kbelfx_open(path)`; the result is the handle. -/
def kbelfx_open {σ : Type} (INT_MAX : Nat) (F : Filesys σ) (s : σ) (path : String) :
    Ran σ Int :=
  let r := F.fs_open s path
  let fd := r.1
  ⟨if fd = -1 then 0 else int_wrap INT_MAX (fd + 1), r.2, [Call.fs_open path]⟩

/-- The descriptor expression `(int)fd - 1` shared by the hooks below. -/
def handle_fd (INT_MAX : Nat) (fd : Int) : Int :=
  int_wrap INT_MAX (int_wrap INT_MAX fd - 1)

/-- The hook `kbelfx_close(fd)`. -/
def kbelfx_close {σ : Type} (INT_MAX : Nat) (F : Filesys σ) (s : σ) (fd : Int) : Ran σ Unit :=
  ⟨(), F.fs_close s (handle_fd INT_MAX fd), [Call.fs_close (handle_fd INT_MAX fd)]⟩

/-- The hook `kbelfx_getc(fd)`.  The local `buf` holds the first byte that
`fs_read` stored; the return value is `none` when the source would read
`buf` without anything having been stored in it. -/
def kbelfx_getc {σ : Type} (INT_MAX CHAR_MAX : Nat) (F : Filesys σ) (s : σ) (fd : Int) :
    Ran σ (Option Int) :=
  let r := F.fs_read s (handle_fd INT_MAX fd) 1
  let len := r.1.1
  let buf := r.1.2.head?
  ⟨if len > 0 then buf.map (char_to_int CHAR_MAX) else some (-1), r.2,
    [Call.fs_read (handle_fd INT_MAX fd) 1]⟩

/-- The hook `kbelfx_read(fd, buf, buf_len)`; the result is the count,
converted to `int`, and the bytes stored into `buf`. -/
def kbelfx_read {σ : Type} (INT_MAX : Nat) (F : Filesys σ) (s : σ) (fd : Int) (buf_len : Int) :
    Ran σ (Int × List Nat) :=
  let r := F.fs_read s (handle_fd INT_MAX fd) buf_len
  ⟨(int_wrap INT_MAX r.1.1, r.1.2), r.2, [Call.fs_read (handle_fd INT_MAX fd) buf_len]⟩

/-- The hook `kbelfx_seek(fd, pos)`. -/
def kbelfx_seek {σ : Type} (INT_MAX : Nat) (F : Filesys σ) (s : σ) (fd : Int) (pos : Int) :
    Ran σ Int :=
  let r := F.fs_seek s (handle_fd INT_MAX fd) pos
  let q := r.1
  ⟨if pos = q then 0 else -1, r.2, [Call.fs_seek (handle_fd INT_MAX fd) pos]⟩

/-! ## Concrete collaborators and inputs

Small executable collaborators on which the hooks can be run. -/

/-- A memory manager that records the reserved windows as `(base, length)`
pairs, newest first.  It serves at most four windows, the first at `0xA000`
and each further one `0x1000` higher, and refuses when four are in use. -/
def demo_mem : ProcMem (List (Nat × Nat)) where
  proc_map_raw := fun wins _ size _ =>
    if wins.length < 4 then
      (0xA000 + 0x1000 * wins.length, (0xA000 + 0x1000 * wins.length, size) :: wins)
    else (0, wins)
  proc_unmap_raw := fun wins base => wins.eraseP (fun w => w.1 == base)

/-- The address space of `demo_mem` with all four windows in use. -/
def demo_mem_full : List (Nat × Nat) :=
  [(0xD000, 1), (0xC000, 1), (0xB000, 1), (0xA000, 1)]

/-- The two segments of the placement example: `0x200` bytes at `0x1000` and
`0x100` bytes at `0x1300`, with arbitrary values in the output fields. -/
def demo_segs : List kbelf_segment :=
  [{ vaddr_req := 0x1000, size := 0x200, vaddr_real := 1, paddr := 2, laddr := 3, alloc_cookie := 4 },
   { vaddr_req := 0x1300, size := 0x100, vaddr_real := 5, paddr := 6, laddr := 7, alloc_cookie := 8 }]

/-- A filesystem holding one file, `/sbin/init`, with the bytes
`7F 45 FF`.  Its state is the read position of descriptor `0`; opening
rewinds, seeking clamps to the end of the file. -/
def demo_fs : Filesys Nat where
  fs_open := fun pos path => if path = "/sbin/init" then (0, 0) else (-1, pos)
  fs_close := fun pos _ => pos
  fs_read := fun pos fd len =>
    if fd = 0 then
      (((([0x7F, 0x45, 0xFF].drop pos).take len.toNat).length,
        ([0x7F, 0x45, 0xFF].drop pos).take len.toNat),
        pos + (([0x7F, 0x45, 0xFF].drop pos).take len.toNat).length)
    else ((-1, []), pos)
  fs_seek := fun pos fd off =>
    if fd = 0 then (min off.toNat 3, min off.toNat 3) else (-1, pos)

/-! ## Arithmetic lemmas -/

theorem size_wrap_cast (SIZE_MAX : Nat) (x : Int) :
    ((size_wrap SIZE_MAX x : Nat) : Int) = x % ((SIZE_MAX + 1 : Nat) : Int) := by
  unfold size_wrap
  apply Int.toNat_of_nonneg
  apply Int.emod_nonneg
  exact_mod_cast Nat.succ_ne_zero SIZE_MAX

theorem size_wrap_le (SIZE_MAX : Nat) (x : Int) : size_wrap SIZE_MAX x ≤ SIZE_MAX := by
  have h := size_wrap_cast SIZE_MAX x
  have hlt : x % ((SIZE_MAX + 1 : Nat) : Int) < ((SIZE_MAX + 1 : Nat) : Int) := by
    apply Int.emod_lt_of_pos
    exact_mod_cast Nat.succ_pos SIZE_MAX
  omega

theorem size_wrap_of_le (SIZE_MAX : Nat) (x : Int) (h0 : 0 ≤ x) (h1 : x ≤ SIZE_MAX) :
    ((size_wrap SIZE_MAX x : Nat) : Int) = x := by
  rw [size_wrap_cast]
  apply Int.emod_eq_of_lt h0
  push_cast
  omega

theorem int_wrap_of_range (INT_MAX : Nat) (x : Int) (h0 : -(INT_MAX : Int) - 1 ≤ x)
    (h1 : x ≤ INT_MAX) : int_wrap INT_MAX x = x := by
  unfold int_wrap
  rw [Int.emod_eq_of_lt] <;> push_cast <;> omega

/-! ## The first loop -/

theorem seg_bounds_foldl_min (SIZE_MAX : Nat) (segs : List kbelf_segment) (acc : Nat × Nat) :
    (segs.foldl (seg_bounds_step SIZE_MAX) acc).1 ≤ acc.1 ∧
    (∀ s ∈ segs, (segs.foldl (seg_bounds_step SIZE_MAX) acc).1 ≤ s.vaddr_req) ∧
    ((segs.foldl (seg_bounds_step SIZE_MAX) acc).1 = acc.1 ∨
      ∃ s ∈ segs, s.vaddr_req = (segs.foldl (seg_bounds_step SIZE_MAX) acc).1) := by
  induction segs generalizing acc with
  | nil => simp
  | cons a t ih =>
    obtain ⟨h1, h2, h3⟩ := ih (seg_bounds_step SIZE_MAX acc a)
    have hstep : (seg_bounds_step SIZE_MAX acc a).1 = if a.vaddr_req < acc.1 then a.vaddr_req else acc.1 := rfl
    simp only [List.foldl_cons, List.mem_cons, forall_eq_or_imp, exists_eq_or_imp]
    refine ⟨?_, ⟨?_, h2⟩, ?_⟩
    · rw [hstep] at h1; split at h1 <;> omega
    · rw [hstep] at h1; split at h1 <;> omega
    · rcases h3 with h3 | h3
      · rw [hstep] at h3
        split at h3
        · right; left; exact h3.symm
        · left; exact h3
      · right; right; exact h3

theorem seg_bounds_foldl_max (SIZE_MAX : Nat) (segs : List kbelf_segment) (acc : Nat × Nat) :
    acc.2 ≤ (segs.foldl (seg_bounds_step SIZE_MAX) acc).2 ∧
    (∀ s ∈ segs, size_wrap SIZE_MAX ((s.vaddr_req : Int) + s.size) ≤
      (segs.foldl (seg_bounds_step SIZE_MAX) acc).2) ∧
    ((segs.foldl (seg_bounds_step SIZE_MAX) acc).2 = acc.2 ∨
      ∃ s ∈ segs, size_wrap SIZE_MAX ((s.vaddr_req : Int) + s.size) =
        (segs.foldl (seg_bounds_step SIZE_MAX) acc).2) := by
  induction segs generalizing acc with
  | nil => simp
  | cons a t ih =>
    obtain ⟨h1, h2, h3⟩ := ih (seg_bounds_step SIZE_MAX acc a)
    have hstep : (seg_bounds_step SIZE_MAX acc a).2 =
        if size_wrap SIZE_MAX ((a.vaddr_req : Int) + a.size) > acc.2
        then size_wrap SIZE_MAX ((a.vaddr_req : Int) + a.size) else acc.2 := rfl
    simp only [List.foldl_cons, List.mem_cons, forall_eq_or_imp, exists_eq_or_imp]
    refine ⟨?_, ⟨?_, h2⟩, ?_⟩
    · rw [hstep] at h1; split at h1 <;> omega
    · rw [hstep] at h1; split at h1 <;> omega
    · rcases h3 with h3 | h3
      · rw [hstep] at h3
        split at h3
        · right; left; exact h3.symm
        · left; exact h3
      · right; right; exact h3

/-- For a non-empty array of in-range requested addresses, `min_addr` after
the first loop is the least requested address. -/
theorem seg_bounds_min (SIZE_MAX : Nat) (segs : List kbelf_segment) (hne : segs ≠ [])
    (hreq : ∀ s ∈ segs, s.vaddr_req ≤ SIZE_MAX) :
    (∃ s ∈ segs, s.vaddr_req = (seg_bounds SIZE_MAX segs).1) ∧
    (∀ s ∈ segs, (seg_bounds SIZE_MAX segs).1 ≤ s.vaddr_req) := by
  obtain ⟨h1, h2, h3⟩ := seg_bounds_foldl_min SIZE_MAX segs (SIZE_MAX, 0)
  refine ⟨?_, h2⟩
  rcases h3 with h3 | h3
  · obtain ⟨a, t, rfl⟩ := List.exists_cons_of_ne_nil hne
    refine ⟨a, List.mem_cons_self a t, ?_⟩
    have ha := hreq a (List.mem_cons_self a t)
    have hb := h2 a (List.mem_cons_self a t)
    unfold seg_bounds
    simp only at h3
    omega
  · exact h3

/-- For a non-empty array whose segment ends stay in range, `max_addr` after
the first loop is the greatest segment end. -/
theorem seg_bounds_max (SIZE_MAX : Nat) (segs : List kbelf_segment) (hne : segs ≠ [])
    (hend : ∀ s ∈ segs, s.vaddr_req + s.size ≤ SIZE_MAX) :
    (∃ s ∈ segs, s.vaddr_req + s.size = (seg_bounds SIZE_MAX segs).2) ∧
    (∀ s ∈ segs, s.vaddr_req + s.size ≤ (seg_bounds SIZE_MAX segs).2) := by
  have hw : ∀ s ∈ segs, size_wrap SIZE_MAX ((s.vaddr_req : Int) + s.size) =
      s.vaddr_req + s.size := by
    intro s hs
    have := size_wrap_of_le SIZE_MAX ((s.vaddr_req : Int) + s.size) (by omega)
      (by have := hend s hs; omega)
    omega
  obtain ⟨h1, h2, h3⟩ := seg_bounds_foldl_max SIZE_MAX segs (SIZE_MAX, 0)
  constructor
  · rcases h3 with h3 | h3
    · obtain ⟨a, t, rfl⟩ := List.exists_cons_of_ne_nil hne
      refine ⟨a, List.mem_cons_self a t, ?_⟩
      have hb := h2 a (List.mem_cons_self a t)
      rw [hw a (List.mem_cons_self a t)] at hb
      unfold seg_bounds
      simp only at h3
      omega
    · obtain ⟨s, hs, he⟩ := h3
      exact ⟨s, hs, by rw [← hw s hs]; exact he⟩
  · intro s hs
    rw [← hw s hs]
    exact h2 s hs

/-! ## Segment placement -/

/-- When the reservation yields a non-zero base, `kbelfx_seg_alloc` on a
non-empty array returns `true`, and entry `i` of the array is the rebased
entry, with the base as cookie at index `0` and `NULL` elsewhere. -/
theorem kbelfx_seg_alloc_success {σ : Type} (SIZE_MAX : Nat) (K : ProcMem σ) (p : σ)
    (segs : List kbelf_segment) (hne : segs ≠ []) (base : Nat) (p' : σ)
    (hmap : K.proc_map_raw p (seg_bounds SIZE_MAX segs).1
      (size_wrap SIZE_MAX (((seg_bounds SIZE_MAX segs).2 : Int) - (seg_bounds SIZE_MAX segs).1))
      16 = (base, p'))
    (hbase : base ≠ 0) :
    ∃ out, kbelfx_seg_alloc SIZE_MAX K (some p) segs =
        .ok ⟨(true, out), p', [Call.proc_map_raw (seg_bounds SIZE_MAX segs).1
          (size_wrap SIZE_MAX (((seg_bounds SIZE_MAX segs).2 : Int) - (seg_bounds SIZE_MAX segs).1))
          16]⟩ ∧
      out.length = segs.length ∧
      ∀ i s, segs[i]? = some s →
        out[i]? = some { seg_rebase SIZE_MAX (seg_bounds SIZE_MAX segs).1 base s with
          alloc_cookie := if i = 0 then base else 0 } := by
  obtain ⟨a, t, rfl⟩ := List.exists_cons_of_ne_nil hne
  refine ⟨{ seg_rebase SIZE_MAX (seg_bounds SIZE_MAX (a :: t)).1 base a with alloc_cookie := base } ::
    t.map (seg_rebase SIZE_MAX (seg_bounds SIZE_MAX (a :: t)).1 base), ?_, by simp, ?_⟩
  · simp only [kbelfx_seg_alloc, hmap, if_neg hbase, List.map_cons]
  · intro i s hs
    cases i with
    | zero =>
      simp only [List.getElem?_cons_zero, Option.some.injEq] at hs
      subst hs
      simp
    | succ j =>
      simp only [List.getElem?_cons_succ] at hs
      simp only [List.getElem?_cons_succ, List.getElem?_map, hs, Option.map_some]
      simp [seg_rebase]

/-- When the reservation yields 0, `kbelfx_seg_alloc` returns `false` with the
array untouched. -/
theorem kbelfx_seg_alloc_failure {σ : Type} (SIZE_MAX : Nat) (K : ProcMem σ) (p : σ)
    (segs : List kbelf_segment)
    (hfail : (K.proc_map_raw p (seg_bounds SIZE_MAX segs).1
      (size_wrap SIZE_MAX (((seg_bounds SIZE_MAX segs).2 : Int) - (seg_bounds SIZE_MAX segs).1))
      16).1 = 0) :
    kbelfx_seg_alloc SIZE_MAX K (some p) segs =
      .ok ⟨(false, segs),
        (K.proc_map_raw p (seg_bounds SIZE_MAX segs).1
          (size_wrap SIZE_MAX (((seg_bounds SIZE_MAX segs).2 : Int) - (seg_bounds SIZE_MAX segs).1))
          16).2,
        [Call.proc_map_raw (seg_bounds SIZE_MAX segs).1
          (size_wrap SIZE_MAX (((seg_bounds SIZE_MAX segs).2 : Int) - (seg_bounds SIZE_MAX segs).1))
          16]⟩ := by
  simp only [kbelfx_seg_alloc, if_pos hfail]

/-- The converse reading of `kbelfx_seg_alloc_success`: every entry of the
array after the call is the rebased entry at the same index before it. -/
theorem kbelfx_seg_alloc_success_entries {σ : Type} (SIZE_MAX : Nat) (K : ProcMem σ) (p : σ)
    (segs : List kbelf_segment) (hne : segs ≠ []) (base : Nat) (p' : σ)
    (hmap : K.proc_map_raw p (seg_bounds SIZE_MAX segs).1
      (size_wrap SIZE_MAX (((seg_bounds SIZE_MAX segs).2 : Int) - (seg_bounds SIZE_MAX segs).1))
      16 = (base, p'))
    (hbase : base ≠ 0) :
    ∃ out, kbelfx_seg_alloc SIZE_MAX K (some p) segs =
        .ok ⟨(true, out), p', [Call.proc_map_raw (seg_bounds SIZE_MAX segs).1
          (size_wrap SIZE_MAX (((seg_bounds SIZE_MAX segs).2 : Int) - (seg_bounds SIZE_MAX segs).1))
          16]⟩ ∧
      out.length = segs.length ∧
      ∀ i s', out[i]? = some s' → ∃ s, segs[i]? = some s ∧
        s' = { seg_rebase SIZE_MAX (seg_bounds SIZE_MAX segs).1 base s with
          alloc_cookie := if i = 0 then base else 0 } := by
  obtain ⟨out, hrun, hlen, hout⟩ :=
    kbelfx_seg_alloc_success SIZE_MAX K p segs hne base p' hmap hbase
  refine ⟨out, hrun, hlen, ?_⟩
  intro i s' hs'
  have hi : i < segs.length := by
    rw [← hlen]
    by_contra hcon
    rw [List.getElem?_eq_none (by omega)] at hs'
    cases hs'
  refine ⟨segs[i], List.getElem?_eq_getElem hi, ?_⟩
  have h := hout i segs[i] (List.getElem?_eq_getElem hi)
  rw [hs'] at h
  exact Option.some.inj h

/-- C1, relative-offset preservation.  For a non-empty array of segments and
a non-zero base returned by `proc_map_raw`, `kbelfx_seg_alloc` returns `true`
and every segment `i` has `vaddr_real = vaddr_req - min_addr + base` in
`size_t` arithmetic, where `min_addr` is the least `vaddr_req` of the array;
hence `vaddr_real - vaddr_req` is `base - min_addr` for every segment. -/
theorem kbelfx_seg_alloc_relative_offset {σ : Type} (SIZE_MAX : Nat) (K : ProcMem σ) (p : σ)
    (segs : List kbelf_segment) (hne : segs ≠ [])
    (hreq : ∀ s ∈ segs, s.vaddr_req ≤ SIZE_MAX) (base : Nat) (p' : σ)
    (hmap : K.proc_map_raw p (seg_bounds SIZE_MAX segs).1
      (size_wrap SIZE_MAX (((seg_bounds SIZE_MAX segs).2 : Int) - (seg_bounds SIZE_MAX segs).1))
      16 = (base, p'))
    (hbase : base ≠ 0) :
    ∃ out calls min_addr,
      kbelfx_seg_alloc SIZE_MAX K (some p) segs = .ok ⟨(true, out), p', calls⟩ ∧
      (∃ s ∈ segs, s.vaddr_req = min_addr) ∧ (∀ s ∈ segs, min_addr ≤ s.vaddr_req) ∧
      out.length = segs.length ∧
      ∀ (i : Nat) (s : kbelf_segment), segs[i]? = some s → ∃ s' : kbelf_segment, out[i]? = some s' ∧
        s'.vaddr_req = s.vaddr_req ∧
        (s'.vaddr_real : Int) =
          ((s.vaddr_req : Int) - min_addr + base) % ((SIZE_MAX + 1 : Nat) : Int) ∧
        ((s'.vaddr_real : Int) - s'.vaddr_req) % ((SIZE_MAX + 1 : Nat) : Int) =
          ((base : Int) - min_addr) % ((SIZE_MAX + 1 : Nat) : Int) := by
  obtain ⟨out, hrun, hlen, hout⟩ :=
    kbelfx_seg_alloc_success SIZE_MAX K p segs hne base p' hmap hbase
  obtain ⟨hmin, hlow⟩ := seg_bounds_min SIZE_MAX segs hne hreq
  refine ⟨out, _, (seg_bounds SIZE_MAX segs).1, hrun, hmin, hlow, hlen, ?_⟩
  intro i s hs
  refine ⟨_, hout i s hs, rfl, ?_⟩
  have hreal : ((size_wrap SIZE_MAX ((size_wrap SIZE_MAX
      ((s.vaddr_req : Int) - (seg_bounds SIZE_MAX segs).1) : Int) + base) : Nat) : Int) =
      ((s.vaddr_req : Int) - (seg_bounds SIZE_MAX segs).1 + base) %
        ((SIZE_MAX + 1 : Nat) : Int) := by
    rw [size_wrap_cast, size_wrap_cast, Int.emod_add_emod]
  refine ⟨hreal, ?_⟩
  show (((size_wrap SIZE_MAX ((size_wrap SIZE_MAX
      ((s.vaddr_req : Int) - (seg_bounds SIZE_MAX segs).1) : Int) + base) : Nat) : Int) -
      (s.vaddr_req : Int)) % ((SIZE_MAX + 1 : Nat) : Int) = _
  rw [hreal, Int.sub_emod, Int.emod_emod, ← Int.sub_emod]
  congr 1
  ring

/-- C2, window tightness.  For a non-empty array in which no
`vaddr_req + size` leaves the `size_t` range, `kbelfx_seg_alloc` makes exactly
one collaborator call, a `proc_map_raw` request that starts at the least
`vaddr_req`, is as long as the greatest `vaddr_req + size` minus the least
`vaddr_req`, and asks for alignment 16: the memory map after the call is the
one that this request leaves, the call returns `true` exactly when this
request yields a non-zero base, and nothing else is recorded. -/
theorem kbelfx_seg_alloc_window_tight {σ : Type} (SIZE_MAX : Nat) (K : ProcMem σ) (p : σ)
    (segs : List kbelf_segment) (hne : segs ≠ [])
    (hend : ∀ s ∈ segs, s.vaddr_req + s.size ≤ SIZE_MAX) :
    ∃ r min_addr max_addr,
      kbelfx_seg_alloc SIZE_MAX K (some p) segs = .ok r ∧
      (∃ s ∈ segs, s.vaddr_req = min_addr) ∧ (∀ s ∈ segs, min_addr ≤ s.vaddr_req) ∧
      (∃ s ∈ segs, s.vaddr_req + s.size = max_addr) ∧
      (∀ s ∈ segs, s.vaddr_req + s.size ≤ max_addr) ∧
      r.state = (K.proc_map_raw p min_addr (max_addr - min_addr) 16).2 ∧
      (r.ret.1 = true ↔ (K.proc_map_raw p min_addr (max_addr - min_addr) 16).1 ≠ 0) ∧
      r.calls = [Call.proc_map_raw min_addr (max_addr - min_addr) 16] := by
  obtain ⟨hmin, hlow⟩ := seg_bounds_min SIZE_MAX segs hne
    (fun s hs => by have := hend s hs; omega)
  obtain ⟨hmax, hup⟩ := seg_bounds_max SIZE_MAX segs hne hend
  have hlen : size_wrap SIZE_MAX
      (((seg_bounds SIZE_MAX segs).2 : Int) - (seg_bounds SIZE_MAX segs).1) =
      (seg_bounds SIZE_MAX segs).2 - (seg_bounds SIZE_MAX segs).1 := by
    obtain ⟨s, hs, he⟩ := hmax
    have h1 := hlow s hs
    have h2 := hend s hs
    have := size_wrap_of_le SIZE_MAX
      (((seg_bounds SIZE_MAX segs).2 : Int) - (seg_bounds SIZE_MAX segs).1)
      (by omega) (by omega)
    omega
  by_cases hz : (K.proc_map_raw p (seg_bounds SIZE_MAX segs).1
      (size_wrap SIZE_MAX (((seg_bounds SIZE_MAX segs).2 : Int) - (seg_bounds SIZE_MAX segs).1))
      16).1 = 0
  · have hrun := kbelfx_seg_alloc_failure SIZE_MAX K p segs hz
    rw [hlen] at hrun hz
    refine ⟨_, (seg_bounds SIZE_MAX segs).1, (seg_bounds SIZE_MAX segs).2, hrun,
      hmin, hlow, hmax, hup, rfl, ?_, rfl⟩
    constructor
    · intro h; cases h
    · intro h; exact absurd hz h
  · obtain ⟨out, hrun, -, -⟩ := kbelfx_seg_alloc_success SIZE_MAX K p segs hne _ _ rfl hz
    rw [hlen] at hrun hz
    exact ⟨_, (seg_bounds SIZE_MAX segs).1, (seg_bounds SIZE_MAX segs).2, hrun,
      hmin, hlow, hmax, hup, rfl, ⟨fun _ => hz, fun _ => rfl⟩, rfl⟩

/-- C3, atomicity on reservation failure.  For every array of segments, if
`proc_map_raw` returns 0 then `kbelfx_seg_alloc` returns `false` and leaves
the array, that is every field of every segment, as it was. -/
theorem kbelfx_seg_alloc_failure_atomic {σ : Type} (SIZE_MAX : Nat) (K : ProcMem σ) (p : σ)
    (segs : List kbelf_segment)
    (hfail : (K.proc_map_raw p (seg_bounds SIZE_MAX segs).1
      (size_wrap SIZE_MAX (((seg_bounds SIZE_MAX segs).2 : Int) - (seg_bounds SIZE_MAX segs).1))
      16).1 = 0) :
    ∃ r, kbelfx_seg_alloc SIZE_MAX K (some p) segs = .ok r ∧
      r.ret.1 = false ∧ r.ret.2 = segs ∧
      ∀ (i : Nat) (s : kbelf_segment), segs[i]? = some s → ∃ s' : kbelf_segment, r.ret.2[i]? = some s' ∧
        s'.vaddr_real = s.vaddr_real ∧ s'.paddr = s.paddr ∧ s'.laddr = s.laddr ∧
        s'.alloc_cookie = s.alloc_cookie ∧ s'.vaddr_req = s.vaddr_req ∧ s'.size = s.size := by
  refine ⟨_, kbelfx_seg_alloc_failure SIZE_MAX K p segs hfail, rfl, rfl, ?_⟩
  intro i s hs
  exact ⟨s, hs, rfl, rfl, rfl, rfl, rfl, rfl⟩

/-- C4, the window covers every segment.  For a non-empty array in which no
`vaddr_req + size` leaves the `size_t` range and a non-zero base such that
base plus window length stays in the `size_t` range, `kbelfx_seg_alloc`
returns `true` and every segment starts at or after the base and ends at or
before the base plus `max_addr - min_addr`, the length that was requested. -/
theorem kbelfx_seg_alloc_window_covers {σ : Type} (SIZE_MAX : Nat) (K : ProcMem σ) (p : σ)
    (segs : List kbelf_segment) (hne : segs ≠ [])
    (hend : ∀ s ∈ segs, s.vaddr_req + s.size ≤ SIZE_MAX) (base : Nat) (p' : σ)
    (hmap : K.proc_map_raw p (seg_bounds SIZE_MAX segs).1
      (size_wrap SIZE_MAX (((seg_bounds SIZE_MAX segs).2 : Int) - (seg_bounds SIZE_MAX segs).1))
      16 = (base, p'))
    (hbase : base ≠ 0)
    (hwin : base + ((seg_bounds SIZE_MAX segs).2 - (seg_bounds SIZE_MAX segs).1) ≤ SIZE_MAX) :
    ∃ out min_addr max_addr,
      kbelfx_seg_alloc SIZE_MAX K (some p) segs =
        .ok ⟨(true, out), p', [Call.proc_map_raw min_addr (max_addr - min_addr) 16]⟩ ∧
      min_addr = (seg_bounds SIZE_MAX segs).1 ∧ max_addr = (seg_bounds SIZE_MAX segs).2 ∧
      out.length = segs.length ∧
      ∀ (i : Nat) (s' : kbelf_segment), out[i]? = some s' →
        base ≤ s'.vaddr_real ∧ s'.vaddr_real + s'.size ≤ base + (max_addr - min_addr) := by
  obtain ⟨out, hrun, hlen, hout⟩ :=
    kbelfx_seg_alloc_success_entries SIZE_MAX K p segs hne base p' hmap hbase
  obtain ⟨-, hlow⟩ := seg_bounds_min SIZE_MAX segs hne
    (fun s hs => by have := hend s hs; omega)
  obtain ⟨hmax, hup⟩ := seg_bounds_max SIZE_MAX segs hne hend
  have hw : size_wrap SIZE_MAX
      (((seg_bounds SIZE_MAX segs).2 : Int) - (seg_bounds SIZE_MAX segs).1) =
      (seg_bounds SIZE_MAX segs).2 - (seg_bounds SIZE_MAX segs).1 := by
    obtain ⟨s, hs, he⟩ := hmax
    have h1 := hlow s hs
    have h2 := hend s hs
    have := size_wrap_of_le SIZE_MAX
      (((seg_bounds SIZE_MAX segs).2 : Int) - (seg_bounds SIZE_MAX segs).1)
      (by omega) (by omega)
    omega
  refine ⟨out, (seg_bounds SIZE_MAX segs).1, (seg_bounds SIZE_MAX segs).2, ?_, rfl, rfl, hlen, ?_⟩
  · rw [hrun, hw]
  · intro i s' hs'
    obtain ⟨s, hs, rfl⟩ := hout i s' hs'
    have hmem : s ∈ segs := List.getElem?_mem hs
    have h1 := hlow s hmem
    have h2 := hup s hmem
    have h3 := hend s hmem
    have e1 := size_wrap_of_le SIZE_MAX ((s.vaddr_req : Int) - (seg_bounds SIZE_MAX segs).1)
      (by omega) (by omega)
    have e2 := size_wrap_of_le SIZE_MAX
      ((size_wrap SIZE_MAX ((s.vaddr_req : Int) - (seg_bounds SIZE_MAX segs).1) : Int) + base)
      (by omega) (by omega)
    show base ≤ size_wrap SIZE_MAX
        ((size_wrap SIZE_MAX ((s.vaddr_req : Int) - (seg_bounds SIZE_MAX segs).1) : Int) + base) ∧
      size_wrap SIZE_MAX
        ((size_wrap SIZE_MAX ((s.vaddr_req : Int) - (seg_bounds SIZE_MAX segs).1) : Int) + base) +
        s.size ≤ base + ((seg_bounds SIZE_MAX segs).2 - (seg_bounds SIZE_MAX segs).1)
    omega

/-- C5, place and release round trip.  For a non-empty array and a non-zero
base `B` returned by `proc_map_raw`, `kbelfx_seg_alloc` returns `true`, and
`kbelfx_seg_free` on the array it leaves makes exactly one collaborator call,
`proc_unmap_raw` with address `B`; so for a memory manager in which
unmapping the base just mapped restores the memory map, the memory map after
place followed by release is the one before place. -/
theorem kbelfx_seg_alloc_free_round_trip {σ : Type} (SIZE_MAX : Nat) (K : ProcMem σ) (p : σ)
    (segs : List kbelf_segment) (hne : segs ≠ []) (B : Nat) (p' : σ)
    (hmap : K.proc_map_raw p (seg_bounds SIZE_MAX segs).1
      (size_wrap SIZE_MAX (((seg_bounds SIZE_MAX segs).2 : Int) - (seg_bounds SIZE_MAX segs).1))
      16 = (B, p'))
    (hB : B ≠ 0) :
    ∃ out calls,
      kbelfx_seg_alloc SIZE_MAX K (some p) segs = .ok ⟨(true, out), p', calls⟩ ∧
      (∀ q : σ, kbelfx_seg_free K (some q) out =
        .ok ⟨(), K.proc_unmap_raw q B, [Call.proc_unmap_raw B]⟩) ∧
      ((∀ (s : σ) (vaddr size align : Nat), (K.proc_map_raw s vaddr size align).1 ≠ 0 →
          K.proc_unmap_raw (K.proc_map_raw s vaddr size align).2
            (K.proc_map_raw s vaddr size align).1 = s) →
        ∃ r, kbelfx_seg_free K (some p') out = .ok r ∧ r.state = p) := by
  obtain ⟨out, hrun, hlen, hout⟩ :=
    kbelfx_seg_alloc_success SIZE_MAX K p segs hne B p' hmap hB
  obtain ⟨a, t, rfl⟩ := List.exists_cons_of_ne_nil hne
  have h0 := hout 0 a (List.getElem?_cons_zero)
  have hfree : ∀ q : σ, kbelfx_seg_free K (some q) out =
      .ok ⟨(), K.proc_unmap_raw q B, [Call.proc_unmap_raw B]⟩ := by
    intro q
    cases out with
    | nil => simp at h0
    | cons o rest =>
      simp only [List.getElem?_cons_zero, Option.some.injEq] at h0
      subst h0
      simp [kbelfx_seg_free]
  refine ⟨out, _, hrun, hfree, ?_⟩
  intro hundo
  refine ⟨_, hfree p', ?_⟩
  have h := hundo p _ _ _ (by rw [hmap]; exact hB)
  rw [hmap] at h
  exact h

/-- C6, output fields.  For a non-empty array and a non-zero base returned
by `proc_map_raw`, `kbelfx_seg_alloc` returns `true` and every segment has
`paddr = laddr = vaddr_real`; the cookie of segment 0 is the base and the
cookie of every segment with a greater index is `NULL`. -/
theorem kbelfx_seg_alloc_output_fields {σ : Type} (SIZE_MAX : Nat) (K : ProcMem σ) (p : σ)
    (segs : List kbelf_segment) (hne : segs ≠ []) (base : Nat) (p' : σ)
    (hmap : K.proc_map_raw p (seg_bounds SIZE_MAX segs).1
      (size_wrap SIZE_MAX (((seg_bounds SIZE_MAX segs).2 : Int) - (seg_bounds SIZE_MAX segs).1))
      16 = (base, p'))
    (hbase : base ≠ 0) :
    ∃ out calls,
      kbelfx_seg_alloc SIZE_MAX K (some p) segs = .ok ⟨(true, out), p', calls⟩ ∧
      out.length = segs.length ∧
      (∀ (i : Nat) (s' : kbelf_segment), out[i]? = some s' →
        s'.paddr = s'.vaddr_real ∧ s'.laddr = s'.vaddr_real) ∧
      (∃ s0 : kbelf_segment, out[0]? = some s0 ∧ s0.alloc_cookie = base) ∧
      (∀ (i : Nat) (s' : kbelf_segment), 0 < i → out[i]? = some s' → s'.alloc_cookie = 0) := by
  obtain ⟨out, hrun, hlen, hout⟩ :=
    kbelfx_seg_alloc_success_entries SIZE_MAX K p segs hne base p' hmap hbase
  refine ⟨out, _, hrun, hlen, ?_, ?_, ?_⟩
  · intro i s' hs'
    obtain ⟨s, -, rfl⟩ := hout i s' hs'
    exact ⟨rfl, rfl⟩
  · have hpos : 0 < out.length := by
      rw [hlen]; exact List.length_pos.mpr hne
    refine ⟨out[0], List.getElem?_eq_getElem hpos, ?_⟩
    obtain ⟨s, -, h⟩ := hout 0 out[0] (List.getElem?_eq_getElem hpos)
    rw [h]
    simp
  · intro i s' hi hs'
    obtain ⟨s, -, rfl⟩ := hout i s' hs'
    have : i ≠ 0 := by omega
    simp [this]

/-! ## File bridge -/

/-- Adding one to an `int` that is not `-1` never gives `0`, also when the
addition wraps. -/
theorem int_wrap_succ_ne_zero (INT_MAX : Nat) (fd : Int) (h0 : 0 ≤ fd) (h1 : fd ≤ INT_MAX) :
    int_wrap INT_MAX (fd + 1) ≠ 0 := by
  by_cases hlt : fd < INT_MAX
  · rw [int_wrap_of_range INT_MAX (fd + 1) (by omega) (by omega)]
    omega
  · have hfd : fd = INT_MAX := by omega
    subst hfd
    have hself : ((INT_MAX : Int) + 1 + ((INT_MAX + 1 : Nat) : Int)) %
        ((2 * (INT_MAX + 1) : Nat) : Int) = 0 := by
      have : (INT_MAX : Int) + 1 + ((INT_MAX + 1 : Nat) : Int) =
          ((2 * (INT_MAX + 1) : Nat) : Int) := by push_cast; ring
      rw [this, Int.emod_self]
    unfold int_wrap
    rw [hself]
    push_cast
    omega

/-- The descriptor recovered from the handle of a descriptor below `INT_MAX`
is that descriptor. -/
theorem handle_fd_open (INT_MAX : Nat) (fd : Int) (h0 : 0 ≤ fd) (h1 : fd < INT_MAX) :
    handle_fd INT_MAX (int_wrap INT_MAX (fd + 1)) = fd := by
  unfold handle_fd
  rw [int_wrap_of_range INT_MAX (fd + 1) (by omega) (by omega)]
  rw [int_wrap_of_range INT_MAX (fd + 1) (by omega) (by omega)]
  rw [int_wrap_of_range INT_MAX (fd + 1 - 1) (by omega) (by omega)]
  omega

/-- C7, handle bias integrity.  When `fs_open` succeeds with a descriptor
that is at least 0 (0 included) `kbelfx_open` returns a handle that is not
`NULL`; when `fs_open` fails with `-1` it returns `NULL`. -/
theorem kbelfx_open_handle_bias {σ : Type} (INT_MAX : Nat) (F : Filesys σ) (s : σ)
    (path : String) :
    (0 ≤ (F.fs_open s path).1 ∧ (F.fs_open s path).1 ≤ INT_MAX →
      (kbelfx_open INT_MAX F s path).ret ≠ 0) ∧
    ((F.fs_open s path).1 = -1 → (kbelfx_open INT_MAX F s path).ret = 0) := by
  constructor
  · rintro ⟨h0, h1⟩
    have hne : (F.fs_open s path).1 ≠ -1 := by omega
    simp only [kbelfx_open, if_neg hne]
    exact int_wrap_succ_ne_zero INT_MAX _ h0 h1
  · intro h
    simp only [kbelfx_open, if_pos h]

/-- C8, seek exactness.  The hook `kbelfx_seek` returns 0 exactly when the
position reported by `fs_seek` equals the requested `pos`, and `-1` in every
other case. -/
theorem kbelfx_seek_exact {σ : Type} (INT_MAX : Nat) (F : Filesys σ) (s : σ) (fd pos : Int) :
    ((kbelfx_seek INT_MAX F s fd pos).ret = 0 ↔
      (F.fs_seek s (handle_fd INT_MAX fd) pos).1 = pos) ∧
    ((F.fs_seek s (handle_fd INT_MAX fd) pos).1 ≠ pos →
      (kbelfx_seek INT_MAX F s fd pos).ret = -1) ∧
    (kbelfx_seek INT_MAX F s fd pos).calls = [Call.fs_seek (handle_fd INT_MAX fd) pos] := by
  by_cases h : pos = (F.fs_seek s (handle_fd INT_MAX fd) pos).1
  · refine ⟨⟨fun _ => h.symm, fun _ => ?_⟩, fun hne => absurd h.symm hne, rfl⟩
    simp only [kbelfx_seek, if_pos h]
  · refine ⟨⟨fun h0 => ?_, fun he => absurd he.symm h⟩, fun _ => ?_, rfl⟩
    · simp only [kbelfx_seek, if_neg h] at h0
      omega
    · simp only [kbelfx_seek, if_neg h]

/-- C9, the biased handle never reaches the filesystem.  For a descriptor
`fd` with `0 ≤ fd < INT_MAX` returned by `fs_open`, the handle `h` that
`kbelfx_open` returns has `h - 1 = fd`, and `kbelfx_close`, `kbelfx_getc`,
`kbelfx_read` and `kbelfx_seek` on `h` pass exactly `fd` to `fs_close`,
`fs_read` and `fs_seek`: the state they leave and the value they return are
those of the filesystem function applied to `fd`, and that one call is all
they record. -/
theorem kbelfx_handle_descriptor {σ : Type} (INT_MAX : Nat) (F : Filesys σ) (s : σ)
    (path : String) (fd : Int) (s1 : σ) (hopen : F.fs_open s path = (fd, s1))
    (h0 : 0 ≤ fd) (h1 : fd < INT_MAX) :
    (kbelfx_open INT_MAX F s path).ret - 1 = fd ∧
    ∀ (t : σ) (CHAR_MAX : Nat) (buf_len pos : Int),
      kbelfx_close INT_MAX F t (kbelfx_open INT_MAX F s path).ret =
        ⟨(), F.fs_close t fd, [Call.fs_close fd]⟩ ∧
      kbelfx_getc INT_MAX CHAR_MAX F t (kbelfx_open INT_MAX F s path).ret =
        ⟨if (F.fs_read t fd 1).1.1 > 0
            then (F.fs_read t fd 1).1.2.head?.map (char_to_int CHAR_MAX) else some (-1),
          (F.fs_read t fd 1).2, [Call.fs_read fd 1]⟩ ∧
      kbelfx_read INT_MAX F t (kbelfx_open INT_MAX F s path).ret buf_len =
        ⟨(int_wrap INT_MAX (F.fs_read t fd buf_len).1.1, (F.fs_read t fd buf_len).1.2),
          (F.fs_read t fd buf_len).2, [Call.fs_read fd buf_len]⟩ ∧
      kbelfx_seek INT_MAX F t (kbelfx_open INT_MAX F s path).ret pos =
        ⟨if pos = (F.fs_seek t fd pos).1 then 0 else -1,
          (F.fs_seek t fd pos).2, [Call.fs_seek fd pos]⟩ := by
  have hne : fd ≠ -1 := by omega
  have hret : (kbelfx_open INT_MAX F s path).ret = int_wrap INT_MAX (fd + 1) := by
    simp only [kbelfx_open, hopen, if_neg hne]
  have hfd := handle_fd_open INT_MAX fd h0 h1
  refine ⟨?_, ?_⟩
  · rw [hret, int_wrap_of_range INT_MAX (fd + 1) (by omega) (by omega)]
    omega
  · intro t CHAR_MAX buf_len pos
    rw [hret]
    simp only [kbelfx_close, kbelfx_getc, kbelfx_read, kbelfx_seek, hfd, and_self]

/-- C10, `kbelfx_getc` returns the byte on success and `-1` on error, with
plain `char` unsigned as on the RISC-V targets of the kernel.  If `fs_read`
of one byte reports a count above 0 and stored the byte `b` (0 to 255), the
result is `b`, which is not `-1`; if it reports a count of 0 or less, the
result is `-1`. -/
theorem kbelfx_getc_byte_or_error {σ : Type} (INT_MAX : Nat) (F : Filesys σ) (s : σ)
    (fd : Int) :
    (∀ b : Nat, 0 < (F.fs_read s (handle_fd INT_MAX fd) 1).1.1 →
      (F.fs_read s (handle_fd INT_MAX fd) 1).1.2.head? = some b → b ≤ 255 →
      (kbelfx_getc INT_MAX 255 F s fd).ret = some (b : Int) ∧
      (kbelfx_getc INT_MAX 255 F s fd).ret ≠ some (-1)) ∧
    ((F.fs_read s (handle_fd INT_MAX fd) 1).1.1 ≤ 0 →
      (kbelfx_getc INT_MAX 255 F s fd).ret = some (-1)) := by
  constructor
  · intro b hlen hbuf hb
    have hret : (kbelfx_getc INT_MAX 255 F s fd).ret = some (b : Int) := by
      have hc : char_to_int 255 b = (b : Int) := by
        unfold char_to_int
        rw [if_pos (by omega)]
        congr 1
        omega
      simp only [kbelfx_getc, gt_iff_lt, if_pos hlen, hbuf, Option.map_some', hc]
    refine ⟨hret, ?_⟩
    rw [hret]
    intro h
    have := Option.some.inj h
    omega
  · intro hlen
    have : ¬ (F.fs_read s (handle_fd INT_MAX fd) 1).1.1 > 0 := by omega
    simp only [kbelfx_getc, if_neg this]

/-- With a signed plain `char` (`CHAR_MAX = 127`) the byte `0xFF` read by
`kbelfx_getc` converts to `-1`: the guarantee of
`kbelfx_getc_byte_or_error` rests on `char` being unsigned. -/
theorem kbelfx_getc_signed_char_0xFF :
    (kbelfx_getc 0x7FFFFFFF 127 demo_fs 2 1).ret = some (-1) ∧
    (kbelfx_getc 0x7FFFFFFF 255 demo_fs 2 1).ret = some 255 := by
  decide

/-! ## The placement example and instances on the concrete collaborators -/

/-- In `demo_mem`, unmapping the base just mapped restores the memory map. -/
theorem demo_mem_undo (s : List (Nat × Nat)) (vaddr size align : Nat)
    (h : (demo_mem.proc_map_raw s vaddr size align).1 ≠ 0) :
    demo_mem.proc_unmap_raw (demo_mem.proc_map_raw s vaddr size align).2
      (demo_mem.proc_map_raw s vaddr size align).1 = s := by
  by_cases hlen : s.length < 4
  · simp [demo_mem, hlen]
  · simp [demo_mem, hlen] at h

/-- The placement example: the segments `0x1000+0x200` and `0x1300+0x100`
request a window of `0x400` bytes at `0x1000`, and with the window at
`0xA000` their real addresses are `0xA000` and `0xA300`. -/
theorem kbelfx_seg_alloc_demo :
    kbelfx_seg_alloc 0xFFFFFFFF demo_mem (some []) demo_segs =
      .ok ⟨(true,
        [{ vaddr_req := 0x1000, size := 0x200, vaddr_real := 0xA000, paddr := 0xA000,
           laddr := 0xA000, alloc_cookie := 0xA000 },
         { vaddr_req := 0x1300, size := 0x100, vaddr_real := 0xA300, paddr := 0xA300,
           laddr := 0xA300, alloc_cookie := 0 }]),
        [(0xA000, 0x400)], [Call.proc_map_raw 0x1000 0x400 16]⟩ := by
  rfl

/-- Instance of `kbelfx_seg_alloc_relative_offset` on the placement example. -/
theorem kbelfx_seg_alloc_relative_offset_witness :
    ∃ out calls min_addr,
      kbelfx_seg_alloc 0xFFFFFFFF demo_mem (some []) demo_segs =
        .ok ⟨(true, out), [(0xA000, 0x400)], calls⟩ ∧
      (∃ s ∈ demo_segs, s.vaddr_req = min_addr) ∧ (∀ s ∈ demo_segs, min_addr ≤ s.vaddr_req) ∧
      out.length = demo_segs.length ∧
      ∀ (i : Nat) (s : kbelf_segment), demo_segs[i]? = some s →
        ∃ s' : kbelf_segment, out[i]? = some s' ∧
        s'.vaddr_req = s.vaddr_req ∧
        (s'.vaddr_real : Int) =
          ((s.vaddr_req : Int) - min_addr + (0xA000 : Nat)) % ((0xFFFFFFFF + 1 : Nat) : Int) ∧
        ((s'.vaddr_real : Int) - s'.vaddr_req) % ((0xFFFFFFFF + 1 : Nat) : Int) =
          (((0xA000 : Nat) : Int) - min_addr) % ((0xFFFFFFFF + 1 : Nat) : Int) :=
  kbelfx_seg_alloc_relative_offset 0xFFFFFFFF demo_mem [] demo_segs (by decide) (by decide)
    0xA000 [(0xA000, 0x400)] (by decide) (by decide)

/-- Instance of `kbelfx_seg_alloc_window_tight` on the placement example. -/
theorem kbelfx_seg_alloc_window_tight_witness :
    ∃ r min_addr max_addr,
      kbelfx_seg_alloc 0xFFFFFFFF demo_mem (some []) demo_segs = .ok r ∧
      (∃ s ∈ demo_segs, s.vaddr_req = min_addr) ∧ (∀ s ∈ demo_segs, min_addr ≤ s.vaddr_req) ∧
      (∃ s ∈ demo_segs, s.vaddr_req + s.size = max_addr) ∧
      (∀ s ∈ demo_segs, s.vaddr_req + s.size ≤ max_addr) ∧
      r.state = (demo_mem.proc_map_raw [] min_addr (max_addr - min_addr) 16).2 ∧
      (r.ret.1 = true ↔ (demo_mem.proc_map_raw [] min_addr (max_addr - min_addr) 16).1 ≠ 0) ∧
      r.calls = [Call.proc_map_raw min_addr (max_addr - min_addr) 16] :=
  kbelfx_seg_alloc_window_tight 0xFFFFFFFF demo_mem [] demo_segs (by decide) (by decide)

/-- Instance of `kbelfx_seg_alloc_failure_atomic`: placement of the example
into the exhausted address space `demo_mem_full`. -/
theorem kbelfx_seg_alloc_failure_atomic_witness :
    ∃ r, kbelfx_seg_alloc 0xFFFFFFFF demo_mem (some demo_mem_full) demo_segs = .ok r ∧
      r.ret.1 = false ∧ r.ret.2 = demo_segs ∧
      ∀ (i : Nat) (s : kbelf_segment), demo_segs[i]? = some s →
        ∃ s' : kbelf_segment, r.ret.2[i]? = some s' ∧
        s'.vaddr_real = s.vaddr_real ∧ s'.paddr = s.paddr ∧ s'.laddr = s.laddr ∧
        s'.alloc_cookie = s.alloc_cookie ∧ s'.vaddr_req = s.vaddr_req ∧ s'.size = s.size :=
  kbelfx_seg_alloc_failure_atomic 0xFFFFFFFF demo_mem demo_mem_full demo_segs (by decide)

/-- Instance of `kbelfx_seg_alloc_window_covers` on the placement example. -/
theorem kbelfx_seg_alloc_window_covers_witness :
    ∃ out min_addr max_addr,
      kbelfx_seg_alloc 0xFFFFFFFF demo_mem (some []) demo_segs =
        .ok ⟨(true, out), [(0xA000, 0x400)],
          [Call.proc_map_raw min_addr (max_addr - min_addr) 16]⟩ ∧
      min_addr = (seg_bounds 0xFFFFFFFF demo_segs).1 ∧
      max_addr = (seg_bounds 0xFFFFFFFF demo_segs).2 ∧
      out.length = demo_segs.length ∧
      ∀ (i : Nat) (s' : kbelf_segment), out[i]? = some s' →
        0xA000 ≤ s'.vaddr_real ∧ s'.vaddr_real + s'.size ≤ 0xA000 + (max_addr - min_addr) :=
  kbelfx_seg_alloc_window_covers 0xFFFFFFFF demo_mem [] demo_segs (by decide) (by decide)
    0xA000 [(0xA000, 0x400)] (by decide) (by decide) (by decide)

/-- Instance of `kbelfx_seg_alloc_free_round_trip` on the placement example:
after place and release the memory map of `demo_mem` is empty again. -/
theorem kbelfx_seg_alloc_free_round_trip_witness :
    ∃ out calls,
      kbelfx_seg_alloc 0xFFFFFFFF demo_mem (some []) demo_segs =
        .ok ⟨(true, out), [(0xA000, 0x400)], calls⟩ ∧
      (∀ q : List (Nat × Nat), kbelfx_seg_free demo_mem (some q) out =
        .ok ⟨(), demo_mem.proc_unmap_raw q 0xA000, [Call.proc_unmap_raw 0xA000]⟩) ∧
      ∃ r, kbelfx_seg_free demo_mem (some [(0xA000, 0x400)]) out = .ok r ∧ r.state = [] :=
  match kbelfx_seg_alloc_free_round_trip 0xFFFFFFFF demo_mem [] demo_segs (by decide)
    0xA000 [(0xA000, 0x400)] (by decide) (by decide) with
  | ⟨out, calls, hrun, hfree, hundo⟩ => ⟨out, calls, hrun, hfree, hundo demo_mem_undo⟩

/-- Instance of `kbelfx_seg_alloc_output_fields` on the placement example. -/
theorem kbelfx_seg_alloc_output_fields_witness :
    ∃ out calls,
      kbelfx_seg_alloc 0xFFFFFFFF demo_mem (some []) demo_segs =
        .ok ⟨(true, out), [(0xA000, 0x400)], calls⟩ ∧
      out.length = demo_segs.length ∧
      (∀ (i : Nat) (s' : kbelf_segment), out[i]? = some s' →
        s'.paddr = s'.vaddr_real ∧ s'.laddr = s'.vaddr_real) ∧
      (∃ s0 : kbelf_segment, out[0]? = some s0 ∧ s0.alloc_cookie = 0xA000) ∧
      (∀ (i : Nat) (s' : kbelf_segment), 0 < i → out[i]? = some s' → s'.alloc_cookie = 0) :=
  kbelfx_seg_alloc_output_fields 0xFFFFFFFF demo_mem [] demo_segs (by decide)
    0xA000 [(0xA000, 0x400)] (by decide) (by decide)

/-- Instance of `kbelfx_open_handle_bias`: `/sbin/init` opens as descriptor 0
and gets a handle that is not `NULL`; a missing file gets `NULL`. -/
theorem kbelfx_open_handle_bias_witness :
    (kbelfx_open 0x7FFFFFFF demo_fs 0 "/sbin/init").ret ≠ 0 ∧
    (kbelfx_open 0x7FFFFFFF demo_fs 0 "/sbin/nope").ret = 0 :=
  ⟨(kbelfx_open_handle_bias 0x7FFFFFFF demo_fs 0 "/sbin/init").1 (by decide),
   (kbelfx_open_handle_bias 0x7FFFFFFF demo_fs 0 "/sbin/nope").2 (by decide)⟩

/-- Instance of `kbelfx_seek_exact`: a seek to offset 5 of the three-byte
file is clamped to 3 by `demo_fs` and reported as `-1`. -/
theorem kbelfx_seek_exact_witness :
    (demo_fs.fs_seek 0 (handle_fd 0x7FFFFFFF 1) 5).1 = 3 ∧
    (kbelfx_seek 0x7FFFFFFF demo_fs 0 1 5).ret = -1 :=
  ⟨by decide, (kbelfx_seek_exact 0x7FFFFFFF demo_fs 0 1 5).2.1 (by decide)⟩

/-- Instance of `kbelfx_handle_descriptor`: the handle of descriptor 0 is 1,
and every hook hands descriptor 0 to `demo_fs`. -/
theorem kbelfx_handle_descriptor_witness :
    (kbelfx_open 0x7FFFFFFF demo_fs 0 "/sbin/init").ret - 1 = 0 ∧
    ∀ (t : Nat) (CHAR_MAX : Nat) (buf_len pos : Int),
      kbelfx_close 0x7FFFFFFF demo_fs t (kbelfx_open 0x7FFFFFFF demo_fs 0 "/sbin/init").ret =
        ⟨(), demo_fs.fs_close t 0, [Call.fs_close 0]⟩ ∧
      kbelfx_getc 0x7FFFFFFF CHAR_MAX demo_fs t
          (kbelfx_open 0x7FFFFFFF demo_fs 0 "/sbin/init").ret =
        ⟨if (demo_fs.fs_read t 0 1).1.1 > 0
            then (demo_fs.fs_read t 0 1).1.2.head?.map (char_to_int CHAR_MAX) else some (-1),
          (demo_fs.fs_read t 0 1).2, [Call.fs_read 0 1]⟩ ∧
      kbelfx_read 0x7FFFFFFF demo_fs t
          (kbelfx_open 0x7FFFFFFF demo_fs 0 "/sbin/init").ret buf_len =
        ⟨(int_wrap 0x7FFFFFFF (demo_fs.fs_read t 0 buf_len).1.1,
            (demo_fs.fs_read t 0 buf_len).1.2),
          (demo_fs.fs_read t 0 buf_len).2, [Call.fs_read 0 buf_len]⟩ ∧
      kbelfx_seek 0x7FFFFFFF demo_fs t
          (kbelfx_open 0x7FFFFFFF demo_fs 0 "/sbin/init").ret pos =
        ⟨if pos = (demo_fs.fs_seek t 0 pos).1 then 0 else -1,
          (demo_fs.fs_seek t 0 pos).2, [Call.fs_seek 0 pos]⟩ :=
  kbelfx_handle_descriptor 0x7FFFFFFF demo_fs 0 "/sbin/init" 0 0 (by decide) (by decide)
    (by decide)

/-- Instance of `kbelfx_getc_byte_or_error`: at position 2 of the file the
byte `0xFF` is returned as 255; at the end of the file the result is `-1`. -/
theorem kbelfx_getc_byte_or_error_witness :
    ((kbelfx_getc 0x7FFFFFFF 255 demo_fs 2 1).ret = some ((0xFF : Nat) : Int) ∧
      (kbelfx_getc 0x7FFFFFFF 255 demo_fs 2 1).ret ≠ some (-1)) ∧
    (kbelfx_getc 0x7FFFFFFF 255 demo_fs 3 1).ret = some (-1) :=
  ⟨(kbelfx_getc_byte_or_error 0x7FFFFFFF demo_fs 2 1).1 0xFF (by decide) (by decide) (by decide),
   (kbelfx_getc_byte_or_error 0x7FFFFFFF demo_fs 3 1).2 (by decide)⟩

end BadgerOS
